import Mathlib

/-!
Verification of the JUnit XML report analyzer (`junit.ts`).

The analyzer's numbers are JavaScript numbers; the code only ever
distinguishes finite values (compared, added, sorted) from non-finite ones
(`Number.isFinite` checks), so a JS number is modelled as a finite rational
or a single non-finite marker.  The XML parser is configured with
`isArray` for `testsuite` / `testcase` / `failure` / `error`, so those
fields are lists after parsing; absence is modelled as the empty list.
JS `Array.prototype.sort` is stable (ES2019), modelled by the stable
`List.insertionSort`.
-/

/-- A JavaScript number as observed by the analyzer: either a finite value
(modelled exactly as a rational) or non-finite (`NaN`, `±Infinity`), which the
code never distinguishes further (it only tests `Number.isFinite`). -/
inductive JSNum where
  | fin (q : ℚ)
  | nonfinite
deriving DecidableEq

/-- A parsed `<failure>` or `<error>` node: either a bare string (text-only
node) or an object with optional `message`, `type`, `#text` and `_` fields. -/
inductive FailNode where
  | str (s : String)
  | obj (message type textBody underscore : Option String)
deriving DecidableEq

/-- `node?.message` — a bare string has no `message` property. -/
def FailNode.jsMessage : FailNode → Option String
  | .str _ => none
  | .obj m _ _ _ => m

/-- `node?.type` — a bare string has no `type` property. -/
def FailNode.jsType : FailNode → Option String
  | .str _ => none
  | .obj _ t _ _ => t

/-- `typeof node === 'string' ? node : node?.['#text'] ?? node?._ ?? undefined` -/
def FailNode.jsDetails : FailNode → Option String
  | .str s => some s
  | .obj _ _ t u => t <|> u

/-- A parsed `<testcase>` element.  `time` is the value of `Number(tc.time)`
when the attribute is present (`none` = attribute absent). -/
structure TestCase where
  classname : Option String
  class_ : Option String
  name : Option String
  time : Option JSNum
  file : Option String
  filename : Option String
  failure : List FailNode
  error : List FailNode
deriving DecidableEq

/-- A parsed `<testsuite>` element.  `time` is `Number(suite.time)` when the
attribute is present. -/
structure Suite where
  name : Option String
  file : Option String
  filename : Option String
  time : Option JSNum
  testcase : List TestCase
deriving DecidableEq

/-- The parsed XML root.  `testsuites` models `root.testsuites` (outer wrapper
node, whose `.testsuite` field may be absent); `testsuite` models bare suite
nodes at the root. -/
structure Root where
  testsuites : Option (Option (List Suite))
  testsuite : Option (List Suite)
deriving DecidableEq

/-- Lines 109–116: collect testsuites regardless of wrapping.  An empty array
is truthy in JS, so a present-but-empty list is still taken. -/
def collectSuites (root : Root) : List Suite :=
  match root.testsuites with
  | some (some l) => l
  | _ =>
    match root.testsuite with
    | some l => l
    | none => []

/-- `status: 'failure' | 'error'`. -/
inductive FailStatus where
  | failure
  | error
deriving DecidableEq

/-- Output type `FailedTest`.  The `time` field is copied verbatim from the
test case, so it can hold a non-finite value. -/
structure FailedTest where
  suiteName : Option String
  className : Option String
  testName : String
  time : Option JSNum
  status : FailStatus
  message : Option String
  type : Option String
  details : Option String
  file : Option String
deriving DecidableEq

/-- Output type `SlowTest` (`time` is guaranteed finite by construction). -/
structure SlowTest where
  suiteName : Option String
  className : Option String
  testName : String
  time : ℚ
  file : Option String
deriving DecidableEq

/-- Output type `SlowSuite`. -/
structure SlowSuite where
  suiteName : Option String
  totalTime : ℚ
  totalTests : ℕ
  failedTests : ℕ
  file : Option String
deriving DecidableEq

/-- Output type `TestStats`.  `passedTests` is computed by subtraction and the
code never clamps it, so it is modelled as an integer. -/
structure TestStats where
  totalSuites : ℕ
  failedSuites : ℕ
  totalTests : ℕ
  failedTests : ℕ
  passedTests : ℤ
deriving DecidableEq

/-- Output type `JUnitReport`. -/
structure JUnitReport where
  stats : TestStats
  failed : List FailedTest
  slowTopQuantileTests : List SlowTest
  slowTopQuantileSuites : List SlowSuite
deriving DecidableEq

/-- Options with their documented defaults. -/
structure JUnitOptions where
  slowTestThresholdSec : ℚ := 5
  topSlowTests : ℕ := 20
  slowSuitesQuantile : ℚ := 8/10
  minKeepSuites : ℕ := 1
deriving DecidableEq

/-- Truthy strings among the items (JS `if (!it) continue` skips `undefined`
and the empty string). -/
def truthyStrings (items : List (Option String)) : List String :=
  items.filterMap fun it =>
    match it with
    | none => none
    | some s => if s = "" then none else some s

/-- Key list in first-insertion order, as a JS `Map` iterates its entries. -/
def keysInOrder (xs : List String) : List String :=
  xs.foldl (fun ks k => if k ∈ ks then ks else ks ++ [k]) []

/-- Lines 77–92: pick the most frequent (truthy) string; the first key reaching
the maximal count wins (`n > bestN` is strict). -/
def mostFrequent (items : List (Option String)) : Option String :=
  let xs := truthyStrings items
  ((keysInOrder xs).foldl
    (fun best k => if xs.count k > best.2 then (some k, xs.count k) else best)
    ((none : Option String), 0)).1

/-- Lines 69–74: inclusive nearest-rank quantile.  `Math.ceil` on an exact
rational is `Rat.ceil`; an out-of-range index yields `undefined` (`none`),
exactly as JS array indexing does. -/
def quantileInclusive (values : List ℚ) (q : ℚ) : Option ℚ :=
  if values.length = 0 then none
  else
    let sorted := values.insertionSort (· ≤ ·)
    let rank : ℕ := (max 1 (Rat.ceil (q * values.length))).toNat
    sorted[rank - 1]?

/-- State threaded through the inner loop over a suite's test cases
(lines 140–199).  `failedTests`, `failed` and `allTimedTests` are the global
accumulators; the other fields are per-suite locals. -/
structure TCState where
  suiteFailed : Bool
  suiteFailedCount : ℕ
  failedTests : ℕ
  failed : List FailedTest
  allTimedTests : List SlowTest
  testcaseFiles : List String
  suiteTimeFromCases : ℚ
deriving DecidableEq

/-- Lines 177–195: `processNode` — one `<failure>`/`<error>` node of a test
case becomes one `failed` entry, and increments the per-suite and global
failed counters. -/
def processNode (suiteName className : Option String) (testName : String)
    (time : Option JSNum) (file : Option String) (st : TCState)
    (node : FailNode) (status : FailStatus) : TCState :=
  { st with
    suiteFailed := true
    suiteFailedCount := st.suiteFailedCount + 1
    failedTests := st.failedTests + 1
    failed := st.failed ++ [{
      suiteName := suiteName
      className := className
      testName := testName
      time := time
      status := status
      message := node.jsMessage
      type := node.jsType
      details := node.jsDetails
      file := file }] }

/-- Lines 146–199: the body of `for (const tc of testcases)`.  A finite
`time` feeds `allTimedTests` and the per-suite sum; a truthy `file` feeds
`testcaseFiles`; then every failure node and every error node goes through
`processNode`, failures first. -/
def processTestCase (suiteName : Option String) (st : TCState)
    (tc : TestCase) : TCState :=
  let className := tc.classname <|> tc.class_
  let testName := tc.name.getD "(unnamed)"
  let time := tc.time
  let file := tc.file <|> tc.filename
  let st1 :=
    match time with
    | some (.fin q) =>
      { st with
        allTimedTests := st.allTimedTests ++ [{
          suiteName := suiteName
          className := className
          testName := testName
          time := q
          file := file }]
        suiteTimeFromCases := st.suiteTimeFromCases + q }
    | _ => st
  let st2 :=
    match file with
    | some f =>
      if f = "" then st1
      else { st1 with testcaseFiles := st1.testcaseFiles ++ [f] }
    | none => st1
  let st3 := tc.failure.foldl
    (fun s n => processNode suiteName className testName time file s n .failure) st2
  tc.error.foldl
    (fun s n => processNode suiteName className testName time file s n .error) st3

/-- State threaded through the outer loop over suites (lines 118–125). -/
structure LoopState where
  totalTests : ℕ
  failedTests : ℕ
  failedSuites : ℕ
  failed : List FailedTest
  allTimedTests : List SlowTest
  allSuites : List SlowSuite
deriving DecidableEq

/-- Lines 127–223: the body of `for (const suite of suites)`.  The suite's
resolved duration prefers a finite `time` attribute over the sum of its test
cases' durations; its resolved file prefers `file`/`filename` over the most
frequent test-case file.  CAVEAT: the `Number.isFinite(totalTime)` guard on
line 214 is modelled as always passing, because a sum of rationals is exact
and therefore finite.  In the program the sum is IEEE-754 double addition,
which can overflow to `Infinity` even when every summand is finite (e.g. two
test cases with `time="9e307"`), in which case the real suite is NOT appended
to `allSuites`.  Statements about `allSuites` membership in this development
are therefore statements about the exact-arithmetic reading only; the
overflow behaviour is outside this rational model. -/
def processSuite (st : LoopState) (suite : Suite) : LoopState :=
  let suiteName := suite.name
  let suiteFile := suite.file <|> suite.filename
  let testcases := suite.testcase
  let tcInit : TCState := {
    suiteFailed := false
    suiteFailedCount := 0
    failedTests := st.failedTests
    failed := st.failed
    allTimedTests := st.allTimedTests
    testcaseFiles := []
    suiteTimeFromCases := 0 }
  let tcEnd := testcases.foldl (processTestCase suiteName) tcInit
  let totalTime :=
    match suite.time with
    | some (.fin q) => q
    | _ => tcEnd.suiteTimeFromCases
  let resolvedFile := suiteFile <|> mostFrequent (tcEnd.testcaseFiles.map some)
  { totalTests := st.totalTests + testcases.length
    failedTests := tcEnd.failedTests
    failedSuites := if tcEnd.suiteFailed then st.failedSuites + 1 else st.failedSuites
    failed := tcEnd.failed
    allTimedTests := tcEnd.allTimedTests
    allSuites := st.allSuites ++ [{
      suiteName := suiteName
      totalTime := totalTime
      totalTests := testcases.length
      failedTests := tcEnd.suiteFailedCount
      file := resolvedFile }] }

/-- Lines 228–231: slow tests — filter by strict threshold, stable sort by
time descending, take the first `topSlowTests`. -/
def slowTopTests (allTimedTests : List SlowTest) (slowTestThresholdSec : ℚ)
    (topSlowTests : ℕ) : List SlowTest :=
  (((allTimedTests.filter fun t => slowTestThresholdSec < t.time).insertionSort
    fun a b => b.time ≤ a.time).take topSlowTests)

/-- Lines 234–239: the quantile-retained suites, before the floor rule. -/
def preFloorSuites (allSuites : List SlowSuite) (q : ℚ) : List SlowSuite :=
  match quantileInclusive (allSuites.map (·.totalTime)) q with
  | none => []
  | some suiteThresh => allSuites.filter fun s => suiteThresh ≤ s.totalTime

/-- Lines 234–246: slow suites — quantile retention, stable sort by total
time descending, then the `minKeepSuites` floor over the full pool. -/
def slowSuitesSelection (allSuites : List SlowSuite) (q : ℚ)
    (minKeepSuites : ℕ) : List SlowSuite :=
  let sortedPre := (preFloorSuites allSuites q).insertionSort
    fun a b => b.totalTime ≤ a.totalTime
  if sortedPre.length < minKeepSuites ∧ allSuites.length ≠ 0 then
    ((allSuites.insertionSort fun a b => b.totalTime ≤ a.totalTime).take minKeepSuites)
  else sortedPre

/-- Lines 118–259 of `getJUnitReportFromXml`: everything after the suites have
been collected from the parsed root. -/
def analyzeSuites (suites : List Suite) (opts : JUnitOptions) : JUnitReport :=
  let st0 : LoopState := {
    totalTests := 0
    failedTests := 0
    failedSuites := 0
    failed := []
    allTimedTests := []
    allSuites := [] }
  let st := suites.foldl processSuite st0
  { stats := {
      totalSuites := suites.length
      failedSuites := st.failedSuites
      totalTests := st.totalTests
      failedTests := st.failedTests
      passedTests := (st.totalTests : ℤ) - (st.failedTests : ℤ) }
    failed := st.failed
    slowTopQuantileTests := slowTopTests st.allTimedTests
      opts.slowTestThresholdSec opts.topSlowTests
    slowTopQuantileSuites := slowSuitesSelection st.allSuites
      opts.slowSuitesQuantile opts.minKeepSuites }

/-- Modelled from the spec: the XML parse step (line 106) is performed by the
third-party `fast-xml-parser` library, whose source is not part of this
repository.  Per the spec, malformed XML is a fatal parse error; a successful
parse yields the root object.  `getJUnitReportFromXml` wraps the parse
outcome: it has no `try`/`catch`, so a parse error propagates to the caller
unchanged and no partial report is produced. -/
def getJUnitReportFromXml (parsed : Except String Root)
    (opts : JUnitOptions) : Except String JUnitReport :=
  match parsed with
  | .error e => .error e
  | .ok root => .ok (analyzeSuites (collectSuites root) opts)

/-- `tc.classname ?? tc.class`. -/
def tcClassName (tc : TestCase) : Option String := tc.classname <|> tc.class_

/-- `tc.name ?? '(unnamed)'`. -/
def tcTestName (tc : TestCase) : String := tc.name.getD "(unnamed)"

/-- `tc.file ?? tc.filename ?? undefined`. -/
def tcFile (tc : TestCase) : Option String := tc.file <|> tc.filename

/-- A test case's annotations in processing order: all failure nodes first,
then all error nodes, each group in node order. -/
def annosOf (tc : TestCase) : List (FailNode × FailStatus) :=
  tc.failure.map (fun n => (n, FailStatus.failure))
    ++ tc.error.map (fun n => (n, FailStatus.error))

/-- The `failed` entry produced by `processNode` for one annotation. -/
def mkFailedEntry (suiteName : Option String) (tc : TestCase)
    (p : FailNode × FailStatus) : FailedTest :=
  { suiteName := suiteName
    className := tcClassName tc
    testName := tcTestName tc
    time := tc.time
    status := p.2
    message := p.1.jsMessage
    type := p.1.jsType
    details := p.1.jsDetails
    file := tcFile tc }

/-- All `failed` entries contributed by one test case, in order. -/
def tcFailedEntries (suiteName : Option String) (tc : TestCase) :
    List FailedTest :=
  (annosOf tc).map (mkFailedEntry suiteName tc)

/-- The `allTimedTests` entries contributed by one test case: one entry when
its `time` is finite, none otherwise. -/
def tcTimedEntries (suiteName : Option String) (tc : TestCase) :
    List SlowTest :=
  match tc.time with
  | some (.fin q) => [{
      suiteName := suiteName
      className := tcClassName tc
      testName := tcTestName tc
      time := q
      file := tcFile tc }]
  | _ => []

/-- A test case's contribution to its suite's duration sum: its finite
duration, or zero. -/
def tcTimeVal (tc : TestCase) : ℚ :=
  match tc.time with
  | some (.fin q) => q
  | _ => 0

/-- A test case's contribution to `testcaseFiles` (only a truthy file). -/
def tcFileList (tc : TestCase) : List String :=
  match tcFile tc with
  | some f => if f = "" then [] else [f]
  | none => []

/-- The number of failure/error annotations a test case carries. -/
def annoCount (tc : TestCase) : ℕ := tc.failure.length + tc.error.length

/-- Total annotation count of a suite. -/
def suiteAnnoCount (s : Suite) : ℕ := (s.testcase.map annoCount).sum

/-- Whether any test case of the suite carries an annotation. -/
def suiteHasFailed (s : Suite) : Bool :=
  s.testcase.any fun tc => decide (annoCount tc ≠ 0)

/-- A suite's resolved duration: a finite `time` attribute, else the sum of
its test cases' finite durations. -/
def suiteTotalTime (s : Suite) : ℚ :=
  match s.time with
  | some (.fin q) => q
  | _ => (s.testcase.map tcTimeVal).sum

/-- The `allSuites` entry produced for one suite. -/
def suiteEntry (s : Suite) : SlowSuite :=
  { suiteName := s.name
    totalTime := suiteTotalTime s
    totalTests := s.testcase.length
    failedTests := suiteAnnoCount s
    file := (s.file <|> s.filename)
      <|> mostFrequent ((s.testcase.flatMap tcFileList).map some) }

/-- Closed form of the final `failed` list. -/
def failedOf (suites : List Suite) : List FailedTest :=
  suites.flatMap fun s => s.testcase.flatMap (tcFailedEntries s.name)

/-- Closed form of `allTimedTests`. -/
def timedOf (suites : List Suite) : List SlowTest :=
  suites.flatMap fun s => s.testcase.flatMap (tcTimedEntries s.name)

/-- Closed form of `allSuites` in the exact-arithmetic model, where line
214's finiteness guard always passes: every suite contributes exactly one
entry.  Under IEEE-754 arithmetic a suite whose duration sum overflows is
dropped by the guard, a behaviour this rational model cannot express (see
`processSuite`). -/
def allSuitesOf (suites : List Suite) : List SlowSuite :=
  suites.map suiteEntry

/-- Closed form of `totalTests`. -/
def totalTestsOf (suites : List Suite) : ℕ :=
  (suites.map fun s => s.testcase.length).sum

/-- Closed form of the global `failedTests` counter: the total number of
failure/error annotations. -/
def failedTestsOf (suites : List Suite) : ℕ :=
  (suites.map suiteAnnoCount).sum

/-- Closed form of `failedSuites`. -/
def failedSuitesOf (suites : List Suite) : ℕ :=
  (suites.filter suiteHasFailed).length

/-- Folding `processNode` over a list of annotation nodes appends one entry
per node and bumps both counters by the node count. -/
lemma foldl_processNode (sn cn : Option String) (tn : String)
    (tm : Option JSNum) (fl : Option String) (σ : FailStatus)
    (ns : List FailNode) (st : TCState) :
    ns.foldl (fun s n => processNode sn cn tn tm fl s n σ) st =
    { st with
      suiteFailed := st.suiteFailed || !ns.isEmpty
      suiteFailedCount := st.suiteFailedCount + ns.length
      failedTests := st.failedTests + ns.length
      failed := st.failed ++ ns.map fun n =>
        { suiteName := sn
          className := cn
          testName := tn
          time := tm
          status := σ
          message := n.jsMessage
          type := n.jsType
          details := n.jsDetails
          file := fl } } := by
  induction ns generalizing st with
  | nil => simp
  | cons n ns ih =>
    rw [List.foldl_cons, ih]
    simp [processNode, TCState.mk.injEq, List.append_assoc]
    omega

/-- `List.isEmpty` as a decide. -/
lemma isEmpty_eq_decide {α : Type} [DecidableEq α] (l : List α) :
    l.isEmpty = decide (l = []) := by
  cases l <;> simp

/-- One step of the test-case loop, in closed form. -/
lemma processTestCase_eq (sn : Option String) (st : TCState) (tc : TestCase) :
    processTestCase sn st tc =
    { suiteFailed := st.suiteFailed || decide (annoCount tc ≠ 0)
      suiteFailedCount := st.suiteFailedCount + annoCount tc
      failedTests := st.failedTests + annoCount tc
      failed := st.failed ++ tcFailedEntries sn tc
      allTimedTests := st.allTimedTests ++ tcTimedEntries sn tc
      testcaseFiles := st.testcaseFiles ++ tcFileList tc
      suiteTimeFromCases := st.suiteTimeFromCases + tcTimeVal tc } := by
  obtain ⟨cn, cl, nm, tm, fl, fn, fs, es⟩ := tc
  simp only [processTestCase]
  rw [foldl_processNode, foldl_processNode]
  simp only [tcFailedEntries, annosOf, tcTimedEntries, tcTimeVal, tcFileList,
    tcClassName, tcTestName, tcFile, mkFailedEntry, annoCount, List.map_append,
    List.map_map]
  rcases tm with _ | j
  case _ =>
    rcases hfile : fl <|> fn with _ | f
    · simp [hfile, TCState.mk.injEq, List.append_assoc, ← Bool.or_assoc,
        isEmpty_eq_decide, Function.comp_def, mkFailedEntry, tcClassName,
        tcTestName, tcFile]
      repeat' apply And.intro
      all_goals first | rfl | omega
    · by_cases hf : f = "" <;>
        [skip; skip] <;>
        simp [hfile, hf, TCState.mk.injEq, List.append_assoc, ← Bool.or_assoc,
          isEmpty_eq_decide, Function.comp_def, mkFailedEntry, tcClassName,
        tcTestName, tcFile] <;>
        repeat' apply And.intro
      all_goals first | rfl | omega
  case _ =>
    cases j <;>
    · rcases hfile : fl <|> fn with _ | f
      · simp [hfile, TCState.mk.injEq, List.append_assoc, ← Bool.or_assoc,
          isEmpty_eq_decide, Function.comp_def, mkFailedEntry, tcClassName,
        tcTestName, tcFile]
        repeat' apply And.intro
        all_goals first | rfl | omega
      · by_cases hf : f = "" <;>
          [skip; skip] <;>
          simp [hfile, hf, TCState.mk.injEq, List.append_assoc, ← Bool.or_assoc,
            isEmpty_eq_decide, Function.comp_def, mkFailedEntry, tcClassName,
        tcTestName, tcFile] <;>
          repeat' apply And.intro
        all_goals first | rfl | omega

/-- The whole test-case loop of one suite, in closed form. -/
lemma foldl_processTestCase (sn : Option String) (tcs : List TestCase)
    (st : TCState) :
    tcs.foldl (processTestCase sn) st =
    { suiteFailed := st.suiteFailed || tcs.any fun tc => decide (annoCount tc ≠ 0)
      suiteFailedCount := st.suiteFailedCount + (tcs.map annoCount).sum
      failedTests := st.failedTests + (tcs.map annoCount).sum
      failed := st.failed ++ tcs.flatMap (tcFailedEntries sn)
      allTimedTests := st.allTimedTests ++ tcs.flatMap (tcTimedEntries sn)
      testcaseFiles := st.testcaseFiles ++ tcs.flatMap tcFileList
      suiteTimeFromCases := st.suiteTimeFromCases + (tcs.map tcTimeVal).sum } := by
  induction tcs generalizing st with
  | nil => simp
  | cons tc tcs ih =>
    rw [List.foldl_cons, processTestCase_eq, ih]
    simp [TCState.mk.injEq, List.append_assoc, Bool.or_assoc]
    repeat' apply And.intro
    all_goals first | rfl | omega | ring

/-- One step of the suite loop, in closed form. -/
lemma processSuite_eq (st : LoopState) (s : Suite) :
    processSuite st s =
    { totalTests := st.totalTests + s.testcase.length
      failedTests := st.failedTests + suiteAnnoCount s
      failedSuites := st.failedSuites + (if suiteHasFailed s then 1 else 0)
      failed := st.failed ++ s.testcase.flatMap (tcFailedEntries s.name)
      allTimedTests := st.allTimedTests ++ s.testcase.flatMap (tcTimedEntries s.name)
      allSuites := st.allSuites ++ [suiteEntry s] } := by
  simp only [processSuite]
  rw [foldl_processTestCase]
  simp only [suiteEntry, suiteTotalTime, suiteAnnoCount, suiteHasFailed,
    Bool.false_or, Nat.zero_add, zero_add, List.append_nil, List.nil_append]
  obtain ⟨snm, sf, sfn, stm, tcs⟩ := s
  rcases stm with _ | j
  · simp only [LoopState.mk.injEq]
    repeat' apply And.intro
    all_goals first | rfl | trivial | (split <;> omega)
  · cases j <;> simp only [LoopState.mk.injEq] <;> repeat' apply And.intro
    all_goals first | rfl | trivial | (split <;> omega)

/-- The whole suite loop, in closed form. -/
lemma foldl_processSuite (suites : List Suite) (st : LoopState) :
    suites.foldl processSuite st =
    { totalTests := st.totalTests + totalTestsOf suites
      failedTests := st.failedTests + failedTestsOf suites
      failedSuites := st.failedSuites + failedSuitesOf suites
      failed := st.failed ++ failedOf suites
      allTimedTests := st.allTimedTests ++ timedOf suites
      allSuites := st.allSuites ++ allSuitesOf suites } := by
  induction suites generalizing st with
  | nil => simp [totalTestsOf, failedTestsOf, failedSuitesOf, failedOf, timedOf,
      allSuitesOf]
  | cons s suites ih =>
    rw [List.foldl_cons, processSuite_eq, ih]
    simp [totalTestsOf, failedTestsOf, failedSuitesOf, failedOf, timedOf,
      allSuitesOf, List.filter_cons, List.append_assoc, LoopState.mk.injEq]
    by_cases hfail : suiteHasFailed s = true <;>
      simp [hfail] <;> repeat' apply And.intro
    all_goals first | rfl | omega

/-- Closed form of the whole analysis: the loop-state folds are exactly the
`…Of` specification functions. -/
theorem analyzeSuites_spec (suites : List Suite) (opts : JUnitOptions) :
    analyzeSuites suites opts =
    { stats := {
        totalSuites := suites.length
        failedSuites := failedSuitesOf suites
        totalTests := totalTestsOf suites
        failedTests := failedTestsOf suites
        passedTests := (totalTestsOf suites : ℤ) - (failedTestsOf suites : ℤ) }
      failed := failedOf suites
      slowTopQuantileTests := slowTopTests (timedOf suites)
        opts.slowTestThresholdSec opts.topSlowTests
      slowTopQuantileSuites := slowSuitesSelection (allSuitesOf suites)
        opts.slowSuitesQuantile opts.minKeepSuites } := by
  simp only [analyzeSuites]
  rw [foldl_processSuite]
  simp

/-- `Rat.ceil` agrees with the mathematical ceiling. -/
lemma ratCeil_eq (q : ℚ) : Rat.ceil q = ⌈q⌉ := by
  symm
  rw [Int.ceil_eq_iff]
  unfold Rat.ceil
  split
  next hden =>
    have hq : (q.num : ℚ) = q := Rat.coe_int_num_of_den_eq_one hden
    constructor
    · rw [hq]; exact sub_one_lt q
    · rw [hq]
  next hden =>
    have hd0 : 0 < (q.den : ℤ) := Int.natCast_pos.mpr q.pos
    have hdq0 : (0 : ℚ) < (q.den : ℚ) := by exact_mod_cast hd0
    have hndvd : ¬ ((q.den : ℤ) ∣ q.num) := by
      intro hdvd
      have h1 : q.den ∣ q.num.natAbs := by
        simpa using Int.natAbs_dvd_natAbs.mpr hdvd
      have h2 : q.den ∣ Nat.gcd q.num.natAbs q.den := Nat.dvd_gcd h1 dvd_rfl
      rw [q.reduced] at h2
      exact hden (Nat.dvd_one.mp h2)
    have hmod : q.num % (q.den : ℤ) ≠ 0 := fun h =>
      hndvd (Int.dvd_of_emod_eq_zero h)
    have hmodpos : 0 < q.num % (q.den : ℤ) :=
      lt_of_le_of_ne (Int.emod_nonneg q.num (ne_of_gt hd0)) (Ne.symm hmod)
    have hmodlt : q.num % (q.den : ℤ) < q.den := Int.emod_lt_of_pos q.num hd0
    have heuc : (q.den : ℤ) * (q.num / q.den) + q.num % q.den = q.num :=
      Int.ediv_add_emod q.num q.den
    have hqval : (q.num : ℚ) / (q.den : ℚ) = q := Rat.num_div_den q
    have hint1 : (q.num / (q.den:ℤ)) * (q.den:ℤ) < q.num := by
      rw [mul_comm]; omega
    have hint2 : q.num ≤ (q.num / (q.den:ℤ) + 1) * (q.den:ℤ) := by
      have hexp : (q.num / (q.den:ℤ) + 1) * (q.den:ℤ)
          = (q.den:ℤ) * (q.num / q.den) + q.den := by ring
      omega
    constructor
    · have hsub : ((q.num / (q.den:ℤ) + 1 : ℤ) : ℚ) - 1
          = ((q.num / (q.den:ℤ) : ℤ) : ℚ) := by push_cast; ring
      rw [hsub]
      have hlt : ((q.num / (q.den:ℤ) : ℤ) : ℚ) < (q.num : ℚ) / (q.den : ℚ) := by
        rw [lt_div_iff₀ hdq0]
        exact_mod_cast hint1
      exact lt_of_lt_of_eq hlt hqval
    · have hle : (q.num : ℚ) / (q.den : ℚ) ≤ ((q.num / (q.den:ℤ) + 1 : ℤ) : ℚ) := by
        rw [div_le_iff₀ hdq0]
        exact_mod_cast hint2
      exact le_of_eq_of_le hqval.symm hle

/-- `orderedInsert` splits the list at the insertion point: elements left of
the inserted element are exactly those it does not precede. -/
lemma orderedInsert_decomp {α : Type} (r : α → α → Prop) [DecidableRel r]
    (a : α) :
    ∀ S : List α, ∃ S₁ S₂, List.orderedInsert r a S = S₁ ++ a :: S₂ ∧
      S = S₁ ++ S₂ ∧ ∀ b ∈ S₁, ¬ r a b
  | [] => ⟨[], [], by simp, by simp, by simp⟩
  | c :: S => by
    by_cases hc : r a c
    · exact ⟨[], c :: S, by simp [List.orderedInsert, hc], rfl, by simp⟩
    · obtain ⟨S₁, S₂, h1, h2, h3⟩ := orderedInsert_decomp r a S
      refine ⟨c :: S₁, S₂, by simp [List.orderedInsert, hc, h1], by simp [h2], ?_⟩
      intro b hb
      rcases List.mem_cons.mp hb with hb | hb
      · exact hb ▸ hc
      · exact h3 b hb

/-- Inserting an element that precedes nothing in the first part lands in the
second part. -/
lemma orderedInsert_append_right {α : Type} (r : α → α → Prop) [DecidableRel r]
    (a : α) (S₁ S₂ : List α) (h : ∀ b ∈ S₁, ¬ r a b) :
    List.orderedInsert r a (S₁ ++ S₂) = S₁ ++ List.orderedInsert r a S₂ := by
  induction S₁ with
  | nil => simp
  | cons c S₁ ih =>
    have hc : ¬ r a c := h c (List.mem_cons_self c S₁)
    simp only [List.cons_append, List.orderedInsert, if_neg hc, List.append_eq]
    rw [ih fun b hb => h b (List.mem_cons_of_mem c hb)]

/-- Inserting an element that precedes everything in the second part lands in
the first part. -/
lemma orderedInsert_append_left {α : Type} (r : α → α → Prop) [DecidableRel r]
    (a : α) (S₁ S₂ : List α) (h : ∀ b ∈ S₂, r a b) :
    List.orderedInsert r a (S₁ ++ S₂) = List.orderedInsert r a S₁ ++ S₂ := by
  induction S₁ with
  | nil =>
    cases S₂ with
    | nil => simp
    | cons c S₂ =>
      simp [List.orderedInsert, h c (List.mem_cons_self c S₂)]
  | cons c S₁ ih =>
    by_cases hc : r a c <;> simp [List.orderedInsert, hc, ih]

/-- A stable sort of a list in which every `p`-element strictly precedes every
non-`p`-element sorts the two groups independently and concatenates them. -/
lemma insertionSort_filter_split {α : Type} (r : α → α → Prop) [DecidableRel r]
    (p : α → Bool) :
    ∀ l : List α,
      (∀ a ∈ l, ∀ b ∈ l, p a = true → p b = false → r a b ∧ ¬ r b a) →
      List.insertionSort r l =
        List.insertionSort r (l.filter p)
          ++ List.insertionSort r (l.filter fun x => !p x)
  | [] => by simp
  | a :: l => fun hdom => by
    have hdom' : ∀ x ∈ l, ∀ b ∈ l, p x = true → p b = false → r x b ∧ ¬ r b x :=
      fun x hx b hb => hdom x (List.mem_cons_of_mem a hx) b (List.mem_cons_of_mem a hb)
    have ih := insertionSort_filter_split r p l hdom'
    by_cases hpa : p a = true
    · have hfp : (a :: l).filter p = a :: l.filter p := by simp [hpa]
      have hfn : (a :: l).filter (fun x => !p x) = l.filter (fun x => !p x) := by
        simp [hpa]
      rw [List.insertionSort, ih, orderedInsert_append_left, hfp, hfn,
        List.insertionSort]
      intro b hb
      have hb' := (List.mem_insertionSort _).mp hb
      have hbl := List.mem_filter.mp hb'
      have hpb : p b = false := by simpa using hbl.2
      exact (hdom a (List.mem_cons_self a l) b (List.mem_cons_of_mem a hbl.1)
        hpa hpb).1
    · have hpa' : p a = false := Bool.eq_false_iff.mpr hpa
      have hfp : (a :: l).filter p = l.filter p := by simp [hpa']
      have hfn : (a :: l).filter (fun x => !p x) = a :: l.filter (fun x => !p x) := by
        simp [hpa']
      rw [List.insertionSort, ih, orderedInsert_append_right, hfp, hfn,
        List.insertionSort]
      intro b hb
      have hb' := (List.mem_insertionSort _).mp hb
      have hbl := List.mem_filter.mp hb'
      exact (hdom b (List.mem_cons_of_mem a hbl.1) a (List.mem_cons_self a l)
        hbl.2 hpa').2

/-- Stability of the descending key sort: within one key class, the sorted
list preserves the original order. -/
lemma insertionSort_filter_stable {α : Type} (key : α → ℚ) (t : ℚ) :
    ∀ l : List α,
      (List.insertionSort (fun a b => key b ≤ key a) l).filter
          (fun a => decide (key a = t))
        = l.filter (fun a => decide (key a = t))
  | [] => by simp
  | a :: l => by
    have ih := insertionSort_filter_stable key t l
    obtain ⟨S₁, S₂, h1, h2, h3⟩ :=
      orderedInsert_decomp (fun a b => key b ≤ key a) a
        (List.insertionSort (fun a b => key b ≤ key a) l)
    have hS12 : (S₁ ++ S₂).filter (fun a => decide (key a = t))
        = l.filter (fun a => decide (key a = t)) := by rw [← h2, ih]
    rw [List.insertionSort, h1]
    by_cases hat : key a = t
    · have hS1 : S₁.filter (fun a => decide (key a = t)) = [] := by
        rw [List.filter_eq_nil_iff]
        intro b hb
        have : key a < key b := lt_of_not_le (h3 b hb)
        simp [hat ▸ ne_of_gt this]
      rw [List.filter_append] at hS12 ⊢
      rw [hS1] at hS12 ⊢
      simp only [List.nil_append] at hS12 ⊢
      simp [hat, hS12]
    · rw [List.filter_append, List.filter_cons_of_neg (by simp [hat]),
        ← List.filter_append, hS12]
      simp [hat]

/-- The descending key sort really sorts. -/
lemma sorted_insertionSortKey {α : Type} (key : α → ℚ) (l : List α) :
    List.Sorted (fun a b => key b ≤ key a)
      (List.insertionSort (fun a b => key b ≤ key a) l) :=
  @List.sorted_insertionSort α _ _
    ⟨fun a b => le_total (key b) (key a)⟩
    ⟨fun _ _ _ h1 h2 => le_trans h2 h1⟩ l

/-- One test case contributes one failed entry per annotation. -/
lemma tcFailedEntries_length (sn : Option String) (tc : TestCase) :
    (tcFailedEntries sn tc).length = annoCount tc := by
  simp [tcFailedEntries, annosOf, annoCount]

/-- One suite contributes one failed entry per annotation. -/
lemma suite_failed_length (s : Suite) :
    (s.testcase.flatMap (tcFailedEntries s.name)).length = suiteAnnoCount s := by
  simp [List.length_flatMap, suiteAnnoCount, tcFailedEntries_length,
    Function.comp_def]

/-- Length of the final failed list is the total annotation count. -/
lemma failedOf_length (suites : List Suite) :
    (failedOf suites).length = failedTestsOf suites := by
  simp only [failedOf, failedTestsOf, List.length_flatMap, Function.comp_def,
    tcFailedEntries_length]
  rfl

/-- A test case with one failure and one error annotation. -/
def tcFailErr : TestCase := {
  classname := none, class_ := none, name := some "t1", time := none,
  file := none, filename := none,
  failure := [.obj (some "m1") none none none],
  error := [.obj (some "m2") none none none] }

/-- A suite containing only `tcFailErr`. -/
def suiteFailErr : Suite := {
  name := some "s1", file := none, filename := none, time := none,
  testcase := [tcFailErr] }

/-- C1: counterexample.  On a report whose single test case carries one
failure and one error annotation, `stats.failedTests` is 2, while the number
of test cases with at least one annotation is 1 — the code counts
annotations, not failing test cases. -/
theorem C1_counterexample :
    (analyzeSuites [suiteFailErr] {}).stats.failedTests = 2 ∧
    (suiteFailErr.testcase.filter fun tc => decide (annoCount tc ≠ 0)).length = 1 ∧
    (analyzeSuites [suiteFailErr] {}).stats.failedTests ≠
      (suiteFailErr.testcase.filter fun tc => decide (annoCount tc ≠ 0)).length := by
  refine ⟨?_, by decide, ?_⟩ <;>
    rw [analyzeSuites_spec] <;> decide

/-- C1 (amended): `stats.failedTests` equals the total number of
failure/error annotations — one increment per annotation, so it equals the
length of the `failed` list, and each suite's failed-count is its annotation
count; a test case with one failure and one error annotation increments
`failedTests` by exactly 2 while contributing 2 entries to `failed`. -/
theorem C1_amended (suites : List Suite) (opts : JUnitOptions) :
    (analyzeSuites suites opts).stats.failedTests
        = (analyzeSuites suites opts).failed.length ∧
    (analyzeSuites suites opts).stats.failedTests = failedTestsOf suites ∧
    ∀ s ∈ suites, (suiteEntry s).failedTests = suiteAnnoCount s := by
  rw [analyzeSuites_spec]
  exact ⟨(failedOf_length suites).symm, rfl, fun s _ => rfl⟩

/-- C1 (amended) witness at the one-failure-one-error report. -/
theorem C1_amended_witness :
    ((analyzeSuites [suiteFailErr] {}).stats.failedTests
        = (analyzeSuites [suiteFailErr] {}).failed.length ∧
      (analyzeSuites [suiteFailErr] {}).stats.failedTests
        = failedTestsOf [suiteFailErr]) ∧
    (suiteEntry suiteFailErr).failedTests = suiteAnnoCount suiteFailErr :=
  ⟨⟨(C1_amended [suiteFailErr] {}).1, (C1_amended [suiteFailErr] {}).2.1⟩,
    (C1_amended [suiteFailErr] {}).2.2 suiteFailErr (List.mem_singleton.mpr rfl)⟩

/-- A test case with two failure annotations. -/
def tcTwoFails : TestCase := {
  classname := none, class_ := none, name := some "t2", time := none,
  file := none, filename := none,
  failure := [.str "a", .str "b"], error := [] }

/-- A suite containing only `tcTwoFails`. -/
def suiteTwoFails : Suite := {
  name := some "s2", file := none, filename := none, time := none,
  testcase := [tcTwoFails] }

/-- C3: counterexample.  One test case with two failure annotations gives
`totalTests = 1`, `failedTests = 2`, so `passedTests = -1 < 0`: `passedTests`
is not non-negative. -/
theorem C3_counterexample :
    (analyzeSuites [suiteTwoFails] {}).stats.passedTests < 0 := by
  rw [analyzeSuites_spec]
  decide

/-- C3 (amended): `passedTests = totalTests − failedTests` always holds, and
`failedTests` is non-negative; `passedTests`, however, can be negative when
test cases carry more annotations than there are test cases. -/
theorem C3_amended (suites : List Suite) (opts : JUnitOptions) :
    (analyzeSuites suites opts).stats.passedTests
        = ((analyzeSuites suites opts).stats.totalTests : ℤ)
          - ((analyzeSuites suites opts).stats.failedTests : ℤ) ∧
    0 ≤ ((analyzeSuites suites opts).stats.failedTests : ℤ) := by
  rw [analyzeSuites_spec]
  exact ⟨rfl, Int.natCast_nonneg _⟩

/-- A well-formed but empty parse result: no wrapper, no bare suites. -/
def emptyRoot : Root := { testsuites := none, testsuite := none }

/-- C2: a failed parse propagates to the caller unchanged — no partial
report of any kind is produced — while a well-formed but empty document
yields the all-zero report rather than an error. -/
theorem C2_parse_failure (e : String) (opts : JUnitOptions) :
    getJUnitReportFromXml (Except.error e) opts = Except.error e ∧
    getJUnitReportFromXml (Except.ok emptyRoot) opts = Except.ok {
      stats := {
        totalSuites := 0
        failedSuites := 0
        totalTests := 0
        failedTests := 0
        passedTests := 0 }
      failed := []
      slowTopQuantileTests := []
      slowTopQuantileSuites := [] } := by
  refine ⟨rfl, ?_⟩
  show Except.ok (analyzeSuites [] opts) = _
  rw [analyzeSuites_spec]
  simp [totalTestsOf, failedTestsOf, failedSuitesOf, failedOf, timedOf,
    allSuitesOf, slowTopTests, slowSuitesSelection, preFloorSuites,
    quantileInclusive]

/-- C8: the failed list is exactly one entry per annotation, grouped by
suite in iteration order, then by test case in document order, with all
failure annotations before all error annotations inside one test case, each
group keeping node order; its length is the total annotation count. -/
theorem C8_failed_order (suites : List Suite) (opts : JUnitOptions) :
    (analyzeSuites suites opts).failed
        = suites.flatMap (fun s => s.testcase.flatMap (tcFailedEntries s.name)) ∧
    (∀ sn tc, tcFailedEntries sn tc
        = tc.failure.map (fun n => mkFailedEntry sn tc (n, FailStatus.failure))
          ++ tc.error.map (fun n => mkFailedEntry sn tc (n, FailStatus.error))) ∧
    (analyzeSuites suites opts).failed.length = failedTestsOf suites := by
  rw [analyzeSuites_spec]
  refine ⟨rfl, fun sn tc => ?_, failedOf_length suites⟩
  simp [tcFailedEntries, annosOf, Function.comp_def]

/-- Everything selected as a slow test exceeds the threshold strictly and
comes from the timed pool. -/
lemma mem_slowTopTests {A : List SlowTest} {θ : ℚ} {N : ℕ} {x : SlowTest}
    (hx : x ∈ slowTopTests A θ N) : θ < x.time ∧ x ∈ A := by
  simp only [slowTopTests] at hx
  have hx1 := List.mem_of_mem_take hx
  have hx2 := (List.mem_insertionSort _).mp hx1
  have hx3 := List.mem_filter.mp hx2
  exact ⟨by simpa using hx3.2, hx3.1⟩

/-- The slow-test selection never exceeds the configured size. -/
lemma slowTopTests_length_le (A : List SlowTest) (θ : ℚ) (N : ℕ) :
    (slowTopTests A θ N).length ≤ N := by
  simp only [slowTopTests]
  exact List.length_take_le _ _

/-- Lowering the threshold only adds entries to the slow-test selection. -/
lemma slowTopTests_mono (A : List SlowTest) {t t' : ℚ} (N : ℕ) (h : t' ≤ t) :
    ∀ x ∈ slowTopTests A t N, x ∈ slowTopTests A t' N := by
  intro x hx
  simp only [slowTopTests] at hx ⊢
  have hdom : ∀ a ∈ A.filter (fun y => decide (t' < y.time)),
      ∀ b ∈ A.filter (fun y => decide (t' < y.time)),
      (fun y : SlowTest => decide (t < y.time)) a = true →
      (fun y : SlowTest => decide (t < y.time)) b = false →
      b.time ≤ a.time ∧ ¬ a.time ≤ b.time := by
    intro a _ b _ hpa hpb
    have ha : t < a.time := of_decide_eq_true hpa
    have hb : ¬ t < b.time := of_decide_eq_false hpb
    have hb' : b.time ≤ t := not_lt.mp hb
    exact ⟨le_of_lt (lt_of_le_of_lt hb' ha), fun hc =>
      absurd (lt_of_lt_of_le ha hc) hb⟩
  have hsplit := insertionSort_filter_split
    (fun a b : SlowTest => b.time ≤ a.time)
    (fun y : SlowTest => decide (t < y.time))
    (A.filter fun y => decide (t' < y.time)) hdom
  have hff : (A.filter fun y => decide (t' < y.time)).filter
      (fun y : SlowTest => decide (t < y.time))
      = A.filter fun y => decide (t < y.time) := by
    rw [List.filter_filter]
    congr 1
    funext y
    by_cases hy : t < y.time
    · simp [hy, lt_of_le_of_lt h hy]
    · simp [hy]
  rw [hsplit, hff, List.take_append_eq_append_take]
  exact List.mem_append_left _ hx

/-- C5: the slow-test selection is exactly: filter the timed pool by strict
threshold, stable-sort by time descending, truncate to `topSlowTests`; every
selected entry exceeds the threshold and comes from the timed pool (so a
test case with no resolved duration is never selected), and the selection
never exceeds `topSlowTests` entries. -/
theorem C5_slow_tests (suites : List Suite) (opts : JUnitOptions) :
    (analyzeSuites suites opts).slowTopQuantileTests
        = (((timedOf suites).filter
              fun x => opts.slowTestThresholdSec < x.time).insertionSort
            fun a b => b.time ≤ a.time).take opts.topSlowTests ∧
    (∀ x ∈ (analyzeSuites suites opts).slowTopQuantileTests,
        opts.slowTestThresholdSec < x.time ∧ x ∈ timedOf suites) ∧
    (analyzeSuites suites opts).slowTopQuantileTests.length
        ≤ opts.topSlowTests := by
  rw [analyzeSuites_spec]
  exact ⟨rfl, fun x hx => mem_slowTopTests hx, slowTopTests_length_le _ _ _⟩

/-- A test case that took 6 seconds. -/
def tcSlow6 : TestCase := {
  classname := none, class_ := none, name := some "slow", time := some (.fin 6),
  file := none, filename := none, failure := [], error := [] }

/-- A suite containing only `tcSlow6`. -/
def suiteSlow6 : Suite := {
  name := some "s6", file := none, filename := none, time := none,
  testcase := [tcSlow6] }

/-- The timed-pool entry that `tcSlow6` produces. -/
def slowEntry6 : SlowTest := {
  suiteName := some "s6", className := none, testName := "slow",
  time := 6, file := none }

/-- With the default 5-second threshold, `tcSlow6` is selected. -/
lemma mem_slow6 :
    slowEntry6 ∈ (analyzeSuites [suiteSlow6] {}).slowTopQuantileTests := by
  rw [analyzeSuites_spec]
  simp [slowTopTests, timedOf, tcTimedEntries, suiteSlow6, tcSlow6,
    tcClassName, tcTestName, tcFile, List.insertionSort, List.orderedInsert,
    slowEntry6]

/-- C5 witness at a one-suite report with a single 6-second test. -/
theorem C5_slow_tests_witness :
    (analyzeSuites [suiteSlow6] {}).slowTopQuantileTests
        = (((timedOf [suiteSlow6]).filter
              fun x => ({} : JUnitOptions).slowTestThresholdSec < x.time).insertionSort
            fun a b => b.time ≤ a.time).take ({} : JUnitOptions).topSlowTests ∧
    (({} : JUnitOptions).slowTestThresholdSec < slowEntry6.time
        ∧ slowEntry6 ∈ timedOf [suiteSlow6]) ∧
    (analyzeSuites [suiteSlow6] {}).slowTopQuantileTests.length
        ≤ ({} : JUnitOptions).topSlowTests :=
  ⟨(C5_slow_tests [suiteSlow6] {}).1,
    (C5_slow_tests [suiteSlow6] {}).2.1 slowEntry6 mem_slow6,
    (C5_slow_tests [suiteSlow6] {}).2.2⟩

/-- C7: with the same `topSlowTests`, lowering the threshold from `t` to
`t' ≤ t` keeps every previously selected test selected, and no selected test
has duration exactly equal to the threshold (the filter is strict). -/
theorem C7_threshold_mono (suites : List Suite) (opts : JUnitOptions)
    (t' : ℚ) (hle : t' ≤ opts.slowTestThresholdSec) :
    ∀ x ∈ (analyzeSuites suites opts).slowTopQuantileTests,
      x ∈ (analyzeSuites suites
            { opts with slowTestThresholdSec := t' }).slowTopQuantileTests
        ∧ x.time ≠ opts.slowTestThresholdSec := by
  intro x hx
  rw [analyzeSuites_spec] at hx
  rw [analyzeSuites_spec]
  refine ⟨slowTopTests_mono _ _ hle x hx, ?_⟩
  exact ne_of_gt (mem_slowTopTests hx).1

/-- C7 witness: the 6-second test selected at threshold 5 stays selected at
threshold 4, and its duration is not 5. -/
theorem C7_threshold_mono_witness :
    slowEntry6 ∈ (analyzeSuites [suiteSlow6]
        { ({} : JUnitOptions) with slowTestThresholdSec := 4 }).slowTopQuantileTests
      ∧ slowEntry6.time ≠ ({} : JUnitOptions).slowTestThresholdSec :=
  C7_threshold_mono [suiteSlow6] {} 4 (by decide) slowEntry6 mem_slow6

/-- Concrete ceiling evaluation through the two bounding inequalities. -/
lemma ratCeil_concrete {x : ℚ} {z : ℤ} (h1 : (z:ℚ) - 1 < x) (h2 : x ≤ z) :
    Rat.ceil x = z := by
  rw [ratCeil_eq]
  exact Int.ceil_eq_iff.mpr ⟨h1, h2⟩

/-- A suite declaring 2 seconds of total time. -/
def suiteT2 : Suite := {
  name := some "a", file := none, filename := none, time := some (.fin 2),
  testcase := [] }

/-- A suite declaring 9 seconds of total time. -/
def suiteT9 : Suite := {
  name := some "b", file := none, filename := none, time := some (.fin 9),
  testcase := [] }

/-- Over the pool [2, 9] at quantile 0.8, only the 9-second suite survives
the quantile cut, so fewer than 5 suites are retained. -/
lemma preFloor_pair_len :
    (((preFloorSuites (allSuitesOf [suiteT2, suiteT9]) (8/10)).insertionSort
        fun a b => b.totalTime ≤ a.totalTime).length) < 5 := by
  have hc : Rat.ceil ((8:ℚ)/5) = 2 :=
    ratCeil_concrete (by norm_num) (by norm_num)
  have hall : allSuitesOf [suiteT2, suiteT9] = [suiteEntry suiteT2, suiteEntry suiteT9] := rfl
  rw [hall]
  norm_num [preFloorSuites, quantileInclusive, suiteEntry, suiteTotalTime,
    suiteT2, suiteT9, List.insertionSort, List.orderedInsert, hc,
    suiteAnnoCount, tcFileList, mostFrequent, truthyStrings, keysInOrder]

/-- C6: whenever the candidate pool is non-empty, if the quantile retains
fewer than `minKeepSuites` suites the output is instead the top
`minKeepSuites` suites of the full pool by duration descending, and in all
cases the output length is at least `min minKeepSuites (pool size)` (the pool
size equals the suite count). -/
theorem C6_min_keep (suites : List Suite) (opts : JUnitOptions)
    (hne : suites ≠ []) :
    (((preFloorSuites (allSuitesOf suites) opts.slowSuitesQuantile).insertionSort
        fun a b => b.totalTime ≤ a.totalTime).length < opts.minKeepSuites →
      (analyzeSuites suites opts).slowTopQuantileSuites
        = ((allSuitesOf suites).insertionSort
            fun a b => b.totalTime ≤ a.totalTime).take opts.minKeepSuites) ∧
    min opts.minKeepSuites suites.length
      ≤ (analyzeSuites suites opts).slowTopQuantileSuites.length := by
  rw [analyzeSuites_spec]
  have hlen : (allSuitesOf suites).length = suites.length := by
    simp [allSuitesOf]
  have hlen0 : (allSuitesOf suites).length ≠ 0 := by
    rw [hlen]
    intro h
    exact hne (List.length_eq_zero.mp h)
  constructor
  · intro hfloor
    simp only [slowSuitesSelection]
    rw [if_pos ⟨hfloor, hlen0⟩]
  · simp only [slowSuitesSelection]
    split
    next hcond =>
      rw [List.length_take, List.length_insertionSort, hlen]
    next hcond =>
      have hge : ¬ ((preFloorSuites (allSuitesOf suites)
          opts.slowSuitesQuantile).insertionSort
            fun a b => b.totalTime ≤ a.totalTime).length < opts.minKeepSuites :=
        fun hlt => hcond ⟨hlt, hlen0⟩
      exact le_trans (min_le_left _ _) (not_lt.mp hge)

/-- C6 witness: pool [2, 9], quantile 0.8 retains one suite, floor 5 forces
the top-5 fallback over the whole pool. -/
theorem C6_min_keep_witness :
    (analyzeSuites [suiteT2, suiteT9]
        { minKeepSuites := 5 }).slowTopQuantileSuites
      = ((allSuitesOf [suiteT2, suiteT9]).insertionSort
          fun a b => b.totalTime ≤ a.totalTime).take 5 ∧
    min 5 2
      ≤ (analyzeSuites [suiteT2, suiteT9]
          { minKeepSuites := 5 }).slowTopQuantileSuites.length :=
  ⟨(C6_min_keep [suiteT2, suiteT9] { minKeepSuites := 5 }
      (by decide)).1 preFloor_pair_len,
    (C6_min_keep [suiteT2, suiteT9] { minKeepSuites := 5 } (by decide)).2⟩

/-- The 1-based nearest rank used by `quantileInclusive`:
`Math.max(1, Math.ceil(q * length))`. -/
def quantileRank (q : ℚ) (n : ℕ) : ℕ := (max 1 (Rat.ceil (q * n))).toNat

/-- `quantileInclusive` on a non-empty pool indexes the ascending sort at
`rank − 1`. -/
lemma quantileInclusive_eq_rank (values : List ℚ) (q : ℚ) (h : values ≠ []) :
    quantileInclusive values q
      = (values.insertionSort (· ≤ ·))[quantileRank q values.length - 1]? := by
  have hlen : values.length ≠ 0 := fun hl => h (List.length_eq_zero.mp hl)
  simp only [quantileInclusive, if_neg hlen, quantileRank]

/-- For a non-empty pool and `q ≤ 1`, the nearest rank lies in `[1, n]`. -/
lemma quantileRank_bound (q : ℚ) (n : ℕ) (h1 : 1 ≤ n) (hq1 : q ≤ 1) :
    1 ≤ quantileRank q n ∧ quantileRank q n ≤ n := by
  unfold quantileRank
  rw [ratCeil_eq]
  have hmul : q * (n:ℚ) ≤ (n:ℚ) := by
    have hn0 : (0:ℚ) ≤ n := Nat.cast_nonneg n
    nlinarith
  have hcle : ⌈q * (n:ℚ)⌉ ≤ (n:ℤ) := by
    calc ⌈q * (n:ℚ)⌉ ≤ ⌈((n:ℤ):ℚ)⌉ := Int.ceil_le_ceil (by exact_mod_cast hmul)
      _ = (n:ℤ) := Int.ceil_intCast _
  have hmax1 : (1:ℤ) ≤ max 1 ⌈q * (n:ℚ)⌉ := le_max_left _ _
  have hmaxn : max 1 ⌈q * (n:ℚ)⌉ ≤ (n:ℤ) :=
    max_le (by exact_mod_cast h1) hcle
  omega

/-- C4: on a non-empty pool with quantile `q ∈ [0,1]`, the threshold is the
element at 1-based rank `max(1, ⌈q·count⌉)` of the ascending-sorted duration
list (the rank is in range, so the threshold is defined), exactly the suites
with duration `≥` that value are retained before the floor rule, and the
retained list is then sorted descending by duration, stably (each duration
class keeps its original order). -/
theorem C4_quantile_rank (allS : List SlowSuite) (q : ℚ) (hne : allS ≠ [])
    (_hq0 : 0 ≤ q) (hq1 : q ≤ 1) :
    quantileRank q allS.length - 1 < allS.length ∧
    (quantileRank q allS.length : ℤ) = max 1 ⌈q * allS.length⌉ ∧
    quantileInclusive (allS.map (·.totalTime)) q
        = ((allS.map (·.totalTime)).insertionSort
            (· ≤ ·))[quantileRank q allS.length - 1]? ∧
    (quantileInclusive (allS.map (·.totalTime)) q).isSome = true ∧
    preFloorSuites allS q
        = allS.filter (fun s =>
            (quantileInclusive (allS.map (·.totalTime)) q).getD 0 ≤ s.totalTime) ∧
    List.Sorted (fun a b : SlowSuite => b.totalTime ≤ a.totalTime)
      ((preFloorSuites allS q).insertionSort
        fun a b => b.totalTime ≤ a.totalTime) ∧
    ∀ t : ℚ, ((preFloorSuites allS q).insertionSort
          fun a b => b.totalTime ≤ a.totalTime).filter
            (fun s => decide (s.totalTime = t))
        = (preFloorSuites allS q).filter fun s => decide (s.totalTime = t) := by
  have h1 : 1 ≤ allS.length := List.length_pos.mpr hne
  obtain ⟨hr1, hrn⟩ := quantileRank_bound q allS.length h1 hq1
  have hlt : quantileRank q allS.length - 1 < allS.length := by omega
  have hmapne : allS.map (·.totalTime) ≠ [] := by
    intro h
    exact hne (List.map_eq_nil_iff.mp h)
  have hlensort : ((allS.map (·.totalTime)).insertionSort (· ≤ ·)).length
      = allS.length := by
    rw [List.length_insertionSort, List.length_map]
  have hlenmap : (allS.map (·.totalTime)).length = allS.length :=
    List.length_map _ _
  have heq := quantileInclusive_eq_rank (allS.map (·.totalTime)) q hmapne
  rw [hlenmap] at heq
  have hltsort : quantileRank q allS.length - 1
      < ((allS.map (·.totalTime)).insertionSort (· ≤ ·)).length := by
    rw [hlensort]; exact hlt
  have hsome : quantileInclusive (allS.map (·.totalTime)) q
      = some (((allS.map (·.totalTime)).insertionSort
          (· ≤ ·))[quantileRank q allS.length - 1]) := by
    rw [heq]
    exact List.getElem?_eq_getElem hltsort
  refine ⟨hlt, ?_, heq, by rw [hsome]; rfl, ?_, sorted_insertionSortKey _ _,
    fun t => insertionSort_filter_stable SlowSuite.totalTime t _⟩
  · unfold quantileRank
    rw [ratCeil_eq, Int.toNat_of_nonneg (by omega)]
  · rw [preFloorSuites, hsome]
    rfl

/-- Five suite entries with durations 1..5 (the spec's worked example). -/
def fiveEntries : List SlowSuite := [
  { suiteName := some "a", totalTime := 1, totalTests := 0, failedTests := 0, file := none },
  { suiteName := some "b", totalTime := 2, totalTests := 0, failedTests := 0, file := none },
  { suiteName := some "c", totalTime := 3, totalTests := 0, failedTests := 0, file := none },
  { suiteName := some "d", totalTime := 4, totalTests := 0, failedTests := 0, file := none },
  { suiteName := some "e", totalTime := 5, totalTests := 0, failedTests := 0, file := none }]

/-- `(0:ℚ) ≤ 8/10`. -/
lemma q810_nonneg : (0:ℚ) ≤ 8/10 := by norm_num

/-- `(8:ℚ)/10 ≤ 1`. -/
lemma q810_le_one : (8:ℚ)/10 ≤ 1 := by norm_num

/-- Quantile 0.8 over durations [1,2,3,4,5] has threshold value 4. -/
lemma quantile_five :
    quantileInclusive (fiveEntries.map (·.totalTime)) (8/10) = some 4 := by
  have hc : Rat.ceil ((4:ℚ)) = 4 := by decide
  norm_num [quantileInclusive, fiveEntries, List.insertionSort,
    List.orderedInsert, hc]
  decide

/-- At threshold value 4, exactly the suites with durations 4 and 5 are
retained from the pool [1,2,3,4,5]. -/
lemma preFloor_five_len : (preFloorSuites fiveEntries (8/10)).length = 2 := by
  rw [preFloorSuites, quantile_five]
  norm_num [fiveEntries]

/-- C4 witness: the worked example — pool [1,2,3,4,5], q = 0.8, rank
max(1, ⌈0.8·5⌉) = 4, threshold value 4, two suites retained. -/
theorem C4_quantile_rank_witness :
    (quantileRank (8/10) fiveEntries.length - 1 < fiveEntries.length ∧
      (quantileRank (8/10) fiveEntries.length : ℤ)
        = max 1 ⌈(8:ℚ)/10 * fiveEntries.length⌉ ∧
      quantileInclusive (fiveEntries.map (·.totalTime)) (8/10)
          = ((fiveEntries.map (·.totalTime)).insertionSort
              (· ≤ ·))[quantileRank (8/10) fiveEntries.length - 1]? ∧
      (quantileInclusive (fiveEntries.map (·.totalTime)) (8/10)).isSome = true ∧
      preFloorSuites fiveEntries (8/10)
          = fiveEntries.filter (fun s =>
              (quantileInclusive (fiveEntries.map (·.totalTime)) (8/10)).getD 0
                ≤ s.totalTime) ∧
      List.Sorted (fun a b : SlowSuite => b.totalTime ≤ a.totalTime)
        ((preFloorSuites fiveEntries (8/10)).insertionSort
          fun a b => b.totalTime ≤ a.totalTime) ∧
      ((preFloorSuites fiveEntries (8/10)).insertionSort
            fun a b => b.totalTime ≤ a.totalTime).filter
              (fun s => decide (s.totalTime = 4))
          = (preFloorSuites fiveEntries (8/10)).filter
              fun s => decide (s.totalTime = 4)) ∧
    quantileInclusive (fiveEntries.map (·.totalTime)) (8/10) = some 4 ∧
    (preFloorSuites fiveEntries (8/10)).length = 2 := by
  have h := C4_quantile_rank fiveEntries (8/10) (by decide)
    q810_nonneg q810_le_one
  exact ⟨⟨h.1, h.2.1, h.2.2.1, h.2.2.2.1, h.2.2.2.2.1, h.2.2.2.2.2.1,
    h.2.2.2.2.2.2 4⟩, quantile_five, preFloor_five_len⟩

/-- A test case whose `time` attribute parsed to a non-finite number, with
one failure annotation. -/
def tcNaN : TestCase := {
  classname := none, class_ := none, name := some "t9",
  time := some JSNum.nonfinite,
  file := none, filename := none, failure := [.str "boom"], error := [] }

/-- A suite containing only `tcNaN`. -/
def suiteNaN : Suite := {
  name := some "s9", file := none, filename := none, time := none,
  testcase := [tcNaN] }

/-- C9: counterexample.  The failed entry produced for a test case with a
non-finite parsed `time` carries that non-finite value in its duration
field — the field is present, not absent. -/
theorem C9_counterexample :
    (analyzeSuites [suiteNaN] {}).failed.map (·.time)
        = [some JSNum.nonfinite] ∧
    some JSNum.nonfinite ≠ (none : Option JSNum) := by
  refine ⟨?_, by decide⟩
  rw [analyzeSuites_spec]
  decide

/-- C9 (amended): a test case with a non-finite parsed `time` never raises:
it contributes nothing to the slow-test candidate pool, contributes 0 to its
suite's duration sum, is still counted in `totalTests`, and its annotations
still produce one `failed` entry each, all of which land in the final failed
list — but their duration field carries the non-finite value rather than
resolving to absent. -/
theorem C9_nonfinite_time (suites : List Suite) (opts : JUnitOptions)
    (s : Suite) (tc : TestCase) (hs : s ∈ suites) (htc : tc ∈ s.testcase)
    (hnf : tc.time = some JSNum.nonfinite) :
    tcTimedEntries s.name tc = [] ∧
    tcTimeVal tc = 0 ∧
    (analyzeSuites suites opts).stats.totalTests = totalTestsOf suites ∧
    (∀ x ∈ (analyzeSuites suites opts).slowTopQuantileTests,
        x ∈ timedOf suites) ∧
    (tcFailedEntries s.name tc).length = annoCount tc ∧
    (∀ e ∈ tcFailedEntries s.name tc, e.time = some JSNum.nonfinite) ∧
    (∀ e ∈ tcFailedEntries s.name tc, e ∈ (analyzeSuites suites opts).failed) := by
  refine ⟨by simp [tcTimedEntries, hnf], by simp [tcTimeVal, hnf],
    by rw [analyzeSuites_spec], ?_, tcFailedEntries_length _ _, ?_, ?_⟩
  · intro x hx
    rw [analyzeSuites_spec] at hx
    exact (mem_slowTopTests hx).2
  · intro e he
    obtain ⟨p, hp, rfl⟩ := List.mem_map.mp he
    simp [mkFailedEntry, hnf]
  · intro e he
    rw [analyzeSuites_spec]
    show e ∈ failedOf suites
    unfold failedOf
    exact List.mem_flatMap.mpr ⟨s, hs, List.mem_flatMap.mpr ⟨tc, htc, he⟩⟩

/-- The failed entry `tcNaN` produces. -/
def entryNaN : FailedTest := {
  suiteName := some "s9", className := none, testName := "t9",
  time := some JSNum.nonfinite, status := FailStatus.failure,
  message := none, type := none, details := some "boom", file := none }

/-- C9 (amended) witness at the concrete non-finite-time report. -/
theorem C9_nonfinite_time_witness :
    tcTimedEntries suiteNaN.name tcNaN = [] ∧
    tcTimeVal tcNaN = 0 ∧
    (analyzeSuites [suiteNaN] {}).stats.totalTests = totalTestsOf [suiteNaN] ∧
    (tcFailedEntries suiteNaN.name tcNaN).length = annoCount tcNaN ∧
    entryNaN.time = some JSNum.nonfinite ∧
    entryNaN ∈ (analyzeSuites [suiteNaN] {}).failed :=
  ⟨(C9_nonfinite_time [suiteNaN] {} suiteNaN tcNaN (by decide) (by decide) rfl).1,
    (C9_nonfinite_time [suiteNaN] {} suiteNaN tcNaN (by decide) (by decide) rfl).2.1,
    (C9_nonfinite_time [suiteNaN] {} suiteNaN tcNaN (by decide) (by decide) rfl).2.2.1,
    (C9_nonfinite_time [suiteNaN] {} suiteNaN tcNaN (by decide) (by decide) rfl).2.2.2.2.1,
    (C9_nonfinite_time [suiteNaN] {} suiteNaN tcNaN (by decide) (by decide)
      rfl).2.2.2.2.2.1 entryNaN (by decide),
    (C9_nonfinite_time [suiteNaN] {} suiteNaN tcNaN (by decide) (by decide)
      rfl).2.2.2.2.2.2 entryNaN (by decide)⟩
